import Mathlib

/-!
Verification development for the Typomancers browser client (`src/game.js`).

The source file contains two revisions of the client concatenated; in
JavaScript, later function declarations in a file override earlier ones, so
the second revision (word-grouped typing feedback, retroactive resolution
timer on `joined_room`) is the operative program and is the one embedded
here.

Modelling conventions:
* JavaScript strings that are processed character by character (typing text,
  server address, timer input) are modelled as `List Char`; identifiers and
  phase tags are modelled as `String`.
* The mutable global `state` object becomes the `ClientState` structure and
  every handler becomes a pure state transformer; outbound `send(...)` calls
  are collected in a returned `List OutMsg`.
* The two interval countdowns share the single `state.timerInterval` handle;
  the handle is modelled as `Option RunningTimer`, remembering which
  countdown was started and its anchor data, and an interval tick becomes an
  explicit function on states.
* DOM rendering (innerHTML, class lists, screens) has no game-state effect
  and is omitted; the few renders that do mutate `state` or the typing input
  element (`renderTypingPhase`) are kept.  The typing `<input>` element's
  value is part of the observable state and is modelled as the
  `typingInputValue` field.
* `Date.now()` is passed in explicitly as an integer argument `now`.
-/

/-- Character class of the JavaScript regular-expression `\s` (whitespace),
as used by `split(/(\s+)/)`, `split(/\s+/)`, `/^\s+$/` and `String.trim`. -/
def isWS (c : Char) : Bool :=
  c == ' ' || c == '\t' || c == '\n' || c == '\r' || c == '\x0b' || c == '\x0c' ||
  c.toNat == 0xa0 || c.toNat == 0x1680 ||
  (0x2000 ≤ c.toNat && c.toNat ≤ 0x200a) ||
  c.toNat == 0x2028 || c.toNat == 0x2029 || c.toNat == 0x202f ||
  c.toNat == 0x205f || c.toNat == 0x3000 || c.toNat == 0xfeff

/-- JavaScript `String.prototype.trim`: strip whitespace from both ends. -/
def jsTrim (l : List Char) : List Char :=
  ((l.dropWhile isWS).reverse.dropWhile isWS).reverse

/-- JavaScript `s.startsWith(pre)`. -/
def startsWithL (s pre : List Char) : Bool :=
  match s, pre with
  | _, [] => true
  | [], _ :: _ => false
  | c :: s', p :: pre' => (c == p) && startsWithL s' pre'

/-- URL normalization performed at the top of `connect(serverUrl)`
(`src/game.js` lines 1090-1099): trim, then map `https://` to `wss://`,
`http://` to `ws://`, prepend `ws://` to bare addresses, and pass
already-schemed websocket addresses through. -/
def normalizeUrl (serverUrl : List Char) : List Char :=
  let wsUrl := jsTrim serverUrl
  if startsWithL wsUrl ("https://".toList) then
    ("wss://".toList) ++ wsUrl.drop 8
  else if startsWithL wsUrl ("http://".toList) then
    ("ws://".toList) ++ wsUrl.drop 7
  else if !startsWithL wsUrl ("ws://".toList) && !startsWithL wsUrl ("wss://".toList) then
    ("ws://".toList) ++ wsUrl
  else
    wsUrl

/-- Maximal runs of characters agreeing on `isWS`, in order.  This is the
semantic core of JavaScript's `split` on a whitespace regex: the runs where
`isWS` holds are exactly the separator matches of `/\s+/`. -/
def runs : List Char → List (List Char)
  | [] => []
  | c :: cs =>
    match runs cs with
    | [] => [[c]]
    | [] :: rs => [c] :: rs
    | (d :: ds) :: rs =>
      if isWS c = isWS d then (c :: d :: ds) :: rs
      else [c] :: (d :: ds) :: rs

/-- JavaScript `s.split(/(\s+)/)` (separator captured, so separator matches
are interleaved into the result).  The result alternates non-separator
segments and separator matches, beginning and ending with a (possibly empty)
non-separator segment: an empty first segment appears when the string starts
with whitespace, an empty last segment when it ends with whitespace, and
`"".split(/(\s+)/)` is `[""]`. -/
def splitCapture (l : List Char) : List (List Char) :=
  match runs l with
  | [] => [[]]
  | r :: rs =>
    ((if r.any isWS then [[]] else []) ++ (r :: rs)) ++
      (if ((r :: rs).getLastD []).any isWS then [[]] else [])

/-- CSS classes attached to a character of the incantation display by
`updateTypingFeedback`. -/
inductive Cls
  | correct
  | incorrect
  | pending
  | completed
deriving DecidableEq

/-- One unit of `updateTypingFeedback` output: either a whitespace character
emitted verbatim (`html += word` for a separator run) or one incantation
character wrapped in a single-class `<span>`. -/
inductive FeedbackItem
  | ws (c : Char)
  | span (cls : Cls) (c : Char)
deriving DecidableEq

/-- The character an output item displays. -/
def itemChar : FeedbackItem → Char
  | FeedbackItem.ws c => c
  | FeedbackItem.span _ c => c

/-- The characters displayed by a feedback sequence, in order. -/
def feedbackChars (items : List FeedbackItem) : List Char :=
  items.map itemChar

/-- Well-placedness of one item: raw items carry whitespace, classified
spans carry non-whitespace. -/
def itemOk : FeedbackItem → Bool
  | FeedbackItem.ws c => isWS c
  | FeedbackItem.span _ c => !isWS c

/-- Item is unclassified whitespace or classified `pending`. -/
def isPendingItem : FeedbackItem → Bool
  | FeedbackItem.ws _ => true
  | FeedbackItem.span Cls.pending _ => true
  | FeedbackItem.span _ _ => false

/-- Item is unclassified whitespace or classified `correct`/`completed`. -/
def isDoneItem : FeedbackItem → Bool
  | FeedbackItem.ws _ => true
  | FeedbackItem.span Cls.correct _ => true
  | FeedbackItem.span Cls.completed _ => true
  | FeedbackItem.span _ _ => false

/-- The per-character inner loop for the current word
(`src/game.js` lines 1666-1677): position `j` is `correct`/`incorrect` by
comparison with the typed word while `j < typedWord.length`, else
`pending`. -/
def classifyCurrent : List Char → List Char → List FeedbackItem
  | _, [] => []
  | [], c :: w => FeedbackItem.span Cls.pending c :: classifyCurrent [] w
  | t :: tw, c :: w =>
    (if t = c then FeedbackItem.span Cls.correct c
     else FeedbackItem.span Cls.incorrect c) :: classifyCurrent tw w

/-- The main loop of `updateTypingFeedback` (`src/game.js` lines 1641-1686):
walk the captured split of the incantation; separator runs
(`/^\s+$/.test(word)`) are emitted raw without advancing `wordIndex`; every
other entry (including the empty boundary segments the split can produce)
occupies one `wordIndex` and is rendered `completed` before the current
word, per-character at the current word, and `pending` after it. -/
def feedbackLoop (tns : List (List Char)) (cur : Nat) :
    Nat → List (List Char) → List FeedbackItem
  | _, [] => []
  | wordIndex, w :: ws =>
    if !w.isEmpty && w.all isWS then
      (w.map FeedbackItem.ws) ++ feedbackLoop tns cur wordIndex ws
    else
      (if wordIndex < cur then w.map (FeedbackItem.span Cls.completed)
       else if wordIndex = cur then classifyCurrent (tns.getD wordIndex []) w
       else w.map (FeedbackItem.span Cls.pending)) ++
        feedbackLoop tns cur (wordIndex + 1) ws

/-- `updateTypingFeedback(expected, typed)` (`src/game.js` lines 1628-1689),
as the abstract item sequence it writes into `typingFeedback.innerHTML`.
`typedNonSpaceWords` is `typed.split(/\s+/).filter(w => w.length > 0)`
(the non-separator entries of the captured split, nonempty ones kept), and
`currentWordIndex` is `typedNonSpaceWords.length - 1` clamped at 0. -/
def updateTypingFeedback (expected typed : List Char) : List FeedbackItem :=
  let typedNonSpaceWords :=
    ((splitCapture typed).filter fun w => w.all fun c => !isWS c).filter
      fun w => !w.isEmpty
  let currentWordIndex :=
    if typedNonSpaceWords.length > 0 then typedNonSpaceWords.length - 1 else 0
  feedbackLoop typedNonSpaceWords currentWordIndex 0 (splitCapture expected)

/-- Spec-side rendition of the word-grouped diff contract, following the
specification text: word boundaries are whitespace runs, passed through
unmodified; a word strictly before the word currently being typed renders
in the single muted `completed` class; the in-progress word renders
per-character by positional comparison; not-yet-reached words render
`pending`. -/
def specLoop (tws : List (List Char)) (cur : Nat) :
    Nat → List (List Char) → List FeedbackItem
  | _, [] => []
  | k, r :: rs =>
    if r.any isWS then (r.map FeedbackItem.ws) ++ specLoop tws cur k rs
    else
      (if k < cur then r.map (FeedbackItem.span Cls.completed)
       else if k = cur then classifyCurrent (tws.getD k []) r
       else r.map (FeedbackItem.span Cls.pending)) ++ specLoop tws cur (k + 1) rs

/-- Spec-side word-grouped diff: the words of the target are its maximal
non-whitespace runs, the typed words likewise, and the in-progress word is
the last typed word (index 0 while nothing has been typed). -/
def feedbackWordSpec (expected typed : List Char) : List FeedbackItem :=
  let tws := (runs typed).filter fun w => !(w.any isWS)
  specLoop tws (tws.length - 1) 0 (runs expected)

/-- The target string does not begin with a whitespace character. -/
def noLeadingWS : List Char → Bool
  | [] => true
  | c :: _ => !isWS c

/-- Hexadecimal digit value, as accepted by `parseInt` in base 16. -/
def hexVal (c : Char) : Option Nat :=
  if '0' ≤ c ∧ c ≤ '9' then some (c.toNat - '0'.toNat)
  else if 'a' ≤ c ∧ c ≤ 'f' then some (c.toNat - 'a'.toNat + 10)
  else if 'A' ≤ c ∧ c ≤ 'F' then some (c.toNat - 'A'.toNat + 10)
  else none

/-- Decimal digit value, as accepted by `parseInt` in base 10. -/
def decVal (c : Char) : Option Nat :=
  if '0' ≤ c ∧ c ≤ '9' then some (c.toNat - '0'.toNat) else none

/-- JavaScript `parseInt(s)` with no radix argument (ECMA-262
`parseInt`): skip leading whitespace, read one optional sign, detect a
`0x`/`0X` prefix (base 16, otherwise base 10), consume the longest digit
prefix, and yield `none` (NaN) when no digit was consumed. -/
def jsParseInt (input : List Char) : Option Int :=
  let s1 := input.dropWhile isWS
  let signAndRest : Int × List Char :=
    match s1 with
    | '-' :: rest => (-1, rest)
    | '+' :: rest => (1, rest)
    | _ => (1, s1)
  let s2 := signAndRest.2
  let hexAndRest : Bool × List Char :=
    match s2 with
    | '0' :: 'x' :: rest => (true, rest)
    | '0' :: 'X' :: rest => (true, rest)
    | _ => (false, s2)
  let digitOf : Char → Option Nat := if hexAndRest.1 then hexVal else decVal
  let digits := hexAndRest.2.takeWhile fun c => (digitOf c).isSome
  let base : Nat := if hexAndRest.1 then 16 else 10
  if digits.isEmpty then none
  else
    some (signAndRest.1 *
      Int.ofNat (digits.foldl (fun acc c => acc * base + (digitOf c).getD 0) 0))

/-- Outbound client messages (`send({type: ...})` payloads), §6 of the
specification. -/
inductive OutMsg
  | join_room (room_id : List Char) (player_name : List Char) (timer_seconds : Int)
  | select_spell (spell_id : String)
  | select_target (target_ids : List String)
  | submit_typing (typed_text : List Char) (completion_time_ms : Option Int)
  | play_again
  | ping
deriving DecidableEq

/-- The `timer_seconds` field of a `join_room` message, when the message is
one. -/
def sentTimerSeconds : OutMsg → Option Int
  | OutMsg.join_room _ _ ts => some ts
  | _ => none

/-- The single shared countdown handle `state.timerInterval`: which
countdown is running and the anchor data its interval closure captured.
`challenge endTime` is the challenge countdown with absolute deadline
`typingStartTime + durationMs`; `resolution startTime initialRemaining` is
the resolution countdown anchored at its local capture instant. -/
inductive RunningTimer
  | challenge (endTime : Int)
  | resolution (startTime : Int) (initialRemaining : Int)
deriving DecidableEq

/-- One lobby participant of `room_state.players`. -/
structure RoomPlayer where
  id : String
  name : String
deriving DecidableEq

/-- The `room_state` payload of `joined_room` / `room_update`. -/
structure RoomState where
  room_id : String
  max_players : Nat
  phase : String
  players : List RoomPlayer
deriving DecidableEq

/-- One participant entry of `game_state.players`. -/
structure PlayerState where
  id : String
  name : String
  hp : Int
  max_hp : Int
  is_alive : Bool
  has_selected_spell : Bool
  has_selected_target : Bool
  has_finished_typing : Bool
deriving DecidableEq

/-- One entry of `game_state.available_spells` (display catalog). -/
structure Spell where
  id : String
  name : String
  spell_type : String
  max_value : Int
  difficulty : String
deriving DecidableEq

/-- The `game_state.typing_phase` payload: target incantation and allotted
duration. -/
structure TypingChallenge where
  incantation : List Char
  duration_ms : Int
deriving DecidableEq

/-- The `game_state` payload of a `game_update` message.  The read-only
resolution playback report and end-of-game statistics are consumed only by
rendering and are omitted from the model. -/
structure GameSnapshot where
  turn_number : Int
  phase : String
  players : List PlayerState
  available_spells : List Spell
  typing_phase : Option TypingChallenge
  phase_time_remaining_ms : Option Int
  winner : Option String
deriving DecidableEq

/-- A `joined_room` message. -/
structure JoinedRoomMsg where
  player_id : String
  room_id : String
  room_state : RoomState
deriving DecidableEq

/-- The global `state` object (`src/game.js` lines 999-1011), plus the
typing `<input>` element's current value (`elements.typingInput.value`),
which the handlers read and reset.  The raw WebSocket handle is not part of
the game state and is omitted. -/
structure ClientState where
  playerId : Option String
  playerName : Option String
  roomId : Option String
  roomState : Option RoomState
  gameState : Option GameSnapshot
  selectedSpell : Option String
  selectedTarget : Option String
  typingStartTime : Option Int
  typingSubmitted : Bool
  timerInterval : Option RunningTimer
  typingInputValue : List Char
deriving DecidableEq

/-- The initial value of the `state` object literal. -/
def initialState : ClientState :=
  { playerId := none, playerName := none, roomId := none, roomState := none,
    gameState := none, selectedSpell := none, selectedTarget := none,
    typingStartTime := none, typingSubmitted := false, timerInterval := none,
    typingInputValue := [] }

/-- JavaScript truthiness test `!state.playerId`: the id is absent (null)
or the empty string. -/
def isFalsy : Option String → Bool
  | none => true
  | some s => s.isEmpty

/-- `stopTimer()` (`src/game.js` lines 1735-1743): clear the interval and
null the handle; deliberately leaves `typingStartTime` alone. -/
def stopTimer (s : ClientState) : ClientState :=
  match s.timerInterval with
  | some _ => { s with timerInterval := none }
  | none => s

/-- `startTimer(durationMs)` (`src/game.js` lines 1707-1733): no-op when a
countdown is already running, else start the challenge countdown with
deadline `typingStartTime + durationMs` (a null start time coerces to 0).
The interval body itself is modelled separately by `challengeTick`. -/
def startTimer (durationMs : Int) (s : ClientState) : ClientState :=
  if s.timerInterval.isSome then s
  else
    { s with
      timerInterval :=
        some (RunningTimer.challenge (s.typingStartTime.getD 0 + durationMs)) }

/-- `startResolutionTimer()` (`src/game.js` lines 1745-1772): no-op when a
countdown is already running or when the snapshot carries no
`phase_time_remaining_ms` hint; else start the resolution countdown
anchored at the current instant. -/
def startResolutionTimer (now : Int) (s : ClientState) : ClientState :=
  if s.timerInterval.isSome then s
  else
    match s.gameState with
    | none => s
    | some game =>
      match game.phase_time_remaining_ms with
      | none => s
      | some r => { s with timerInterval := some (RunningTimer.resolution now r) }

/-- `submitTyping(finished)` (`src/game.js` lines 1691-1705): one-shot
guarded by `typingSubmitted`; the first call sends exactly one
`submit_typing` message carrying the current input text and, for a finished
submission, the elapsed time since `typingStartTime` (null completion time
otherwise), then stops the countdown. -/
def submitTyping (now : Int) (finished : Bool) (s : ClientState) :
    ClientState × List OutMsg :=
  if s.typingSubmitted then (s, [])
  else
    let s1 : ClientState := { s with typingSubmitted := true }
    let completionTime : Option Int :=
      if finished then some (now - s1.typingStartTime.getD 0) else none
    (stopTimer s1, [OutMsg.submit_typing s1.typingInputValue completionTime])

/-- One firing of the challenge-countdown interval body
(`src/game.js` lines 1715-1732), for the closure deadline `endTime`: when
the remaining time `max(0, endTime - now)` has reached zero, stop the
countdown and, if nothing has been submitted yet, force an unfinished
submission; otherwise only the display changes. -/
def challengeTick (now endTime : Int) (s : ClientState) :
    ClientState × List OutMsg :=
  let remaining := max 0 (endTime - now)
  if remaining ≤ 0 then
    let s1 := stopTimer s
    if !s1.typingSubmitted then submitTyping now false s1
    else (s1, [])
  else (s, [])

/-- `renderTypingPhase()` (`src/game.js` lines 1571-1626), restricted to its
state effects: waiting-overlay early-outs, then on the first render of the
phase (`!state.typingStartTime`) clear the input, capture the typing start
timestamp, and start the challenge countdown; re-renders preserve
progress. -/
def renderTypingPhase (now : Int) (s : ClientState) (game : GameSnapshot)
    (self : PlayerState) : ClientState :=
  if self.has_finished_typing || s.typingSubmitted then s
  else
    match game.typing_phase with
    | none => s
    | some typing =>
      let isFirstRender :=
        match s.typingStartTime with
        | none => true
        | some t => t == 0
      if isFirstRender then
        startTimer typing.duration_ms
          { s with typingInputValue := [], typingStartTime := some now }
      else s

/-- `renderGame()` (`src/game.js` lines 1319-1374), restricted to its state
effects: bail out without game state or identity, route a dead participant
to the spectating overlay before any phase-specific rendering, and
otherwise only the typing phase mutates state. -/
def renderGame (now : Int) (s : ClientState) : ClientState :=
  match s.gameState with
  | none => s
  | some game =>
    if isFalsy s.playerId then s
    else
      match game.players.find? fun p => some p.id == s.playerId with
      | none => s
      | some self =>
        if !self.is_alive then s
        else if game.phase = "typing" then renderTypingPhase now s game self
        else s

/-- `handleJoinedRoom(msg)` (`src/game.js` lines 1154-1173): record the
assigned identity and room, show the lobby when the room is still waiting;
otherwise, if a `game_update` snapshot was already buffered, render it now
and, when the buffered phase is `resolution`, start the resolution
countdown retroactively. -/
def handleJoinedRoom (now : Int) (s : ClientState) (msg : JoinedRoomMsg) :
    ClientState :=
  let s1 : ClientState :=
    { s with
      playerId := some msg.player_id, roomId := some msg.room_id,
      roomState := some msg.room_state }
  if msg.room_state.phase = "waiting_for_players" then s1
  else
    match s1.gameState with
    | none => s1
    | some game =>
      let s2 := renderGame now s1
      if game.phase = "resolution" then startResolutionTimer now s2 else s2

/-- The four edge-conditioned side-effect blocks of `handleGameUpdate`, as
observable events: which block's body ran. -/
inductive PhaseEdge
  | enterSpellSelection
  | leaveTyping
  | enterResolution
  | leaveResolution
deriving DecidableEq

/-- `handleGameUpdate(msg)` (`src/game.js` lines 1187-1230): replace the
snapshot wholesale; before identity is known, store it and do nothing else;
afterwards fire the four phase-edge blocks (reset per-turn state on entering
`spell_selection`, clear the typing start and stop the countdown on leaving
`typing`, start the resolution countdown on entering `resolution`, stop it
on leaving `resolution`) and finally render.  The returned list records, in
program order, which edge blocks executed. -/
def handleGameUpdate (now : Int) (s : ClientState) (g : GameSnapshot) :
    ClientState × List PhaseEdge :=
  let previousPhase := s.gameState.map GameSnapshot.phase
  let newPhase := g.phase
  let s0 : ClientState := { s with gameState := some g }
  if isFalsy s0.playerId then (s0, [])
  else
    let p1 :=
      if newPhase = "spell_selection" ∧ previousPhase ≠ some "spell_selection" then
        (stopTimer { s0 with
                      selectedSpell := none, selectedTarget := none,
                      typingSubmitted := false, typingStartTime := none },
         [PhaseEdge.enterSpellSelection])
      else (s0, [])
    let p2 :=
      if previousPhase = some "typing" ∧ newPhase ≠ "typing" then
        (stopTimer { p1.1 with typingStartTime := none },
         p1.2 ++ [PhaseEdge.leaveTyping])
      else p1
    let p3 :=
      if newPhase = "resolution" ∧ previousPhase ≠ some "resolution" then
        (startResolutionTimer now p2.1, p2.2 ++ [PhaseEdge.enterResolution])
      else p2
    let p4 :=
      if previousPhase = some "resolution" ∧ newPhase ≠ "resolution" then
        (stopTimer p3.1, p3.2 ++ [PhaseEdge.leaveResolution])
      else p3
    (if newPhase = "game_over" then p4.1 else renderGame now p4.1, p4.2)

/-- The edge events `handleGameUpdate` fires for one snapshot, as a pure
function of the previous and the new phase tag. -/
def edgesOf (prev : Option String) (next : String) : List PhaseEdge :=
  (if next = "spell_selection" ∧ prev ≠ some "spell_selection" then
    [PhaseEdge.enterSpellSelection] else []) ++
  (if prev = some "typing" ∧ next ≠ "typing" then
    [PhaseEdge.leaveTyping] else []) ++
  (if next = "resolution" ∧ prev ≠ some "resolution" then
    [PhaseEdge.enterResolution] else []) ++
  (if prev = some "resolution" ∧ next ≠ "resolution" then
    [PhaseEdge.leaveResolution] else [])

/-- Edge events along a phase-tag sequence, starting from a previous tag. -/
def traceEdges : Option String → List String → List PhaseEdge
  | _, [] => []
  | prev, p :: ps => edgesOf prev p ++ traceEdges (some p) ps

/-- Process a sequence of `game_update` messages (each with its arrival
instant), concatenating the fired edge events. -/
def processUpdates (s : ClientState) :
    List (Int × GameSnapshot) → ClientState × List PhaseEdge
  | [] => (s, [])
  | u :: us =>
    let p := handleGameUpdate u.1 s u.2
    let q := processUpdates p.1 us
    (q.1, p.2 ++ q.2)

/-- Run a sequence of submit triggers (each with its instant and `finished`
flag) through `submitTyping`, concatenating the outbound messages.  The
triggers model any interleaving of the manual button, the Enter key, the
auto-complete timeout and the countdown-expiry path. -/
def runSubmits (s : ClientState) : List (Int × Bool) → ClientState × List OutMsg
  | [] => (s, [])
  | t :: ts =>
    let p := submitTyping t.1 t.2 s
    let q := runSubmits p.1 ts
    (q.1, p.2 ++ q.2)

/-- The join-form submit handler (`src/game.js` lines 1236-1265), as the
outbound `join_room` message it sends: trim the three text fields,
compute `parseInt(timerSecondsInput.value) || 30`, refuse on an empty
required field, and send only when the connection opened
(`connectOk` abstracts the `connect` promise resolving). -/
def joinFormSubmit (connectOk : Bool)
    (playerNameInput serverUrlInput roomIdInput timerInput : List Char) :
    Option OutMsg :=
  let playerName := jsTrim playerNameInput
  let serverUrl := jsTrim serverUrlInput
  let roomId := jsTrim roomIdInput
  let timerSeconds : Int :=
    match jsParseInt timerInput with
    | none => 30
    | some n => if n = 0 then 30 else n
  if playerName.isEmpty || serverUrl.isEmpty || roomId.isEmpty then none
  else if !connectOk then none
  else some (OutMsg.join_room roomId playerName timerSeconds)

/-! ## Helper lemmas -/

theorem stopTimer_playerId (s : ClientState) : (stopTimer s).playerId = s.playerId := by
  unfold stopTimer; split <;> rfl

theorem stopTimer_gameState (s : ClientState) : (stopTimer s).gameState = s.gameState := by
  unfold stopTimer; split <;> rfl

theorem stopTimer_typingSubmitted (s : ClientState) :
    (stopTimer s).typingSubmitted = s.typingSubmitted := by
  unfold stopTimer; split <;> rfl

theorem stopTimer_typingInputValue (s : ClientState) :
    (stopTimer s).typingInputValue = s.typingInputValue := by
  unfold stopTimer; split <;> rfl

theorem stopTimer_timerInterval (s : ClientState) :
    (stopTimer s).timerInterval = none := by
  unfold stopTimer; split
  · rfl
  · next h => simpa using h

theorem startTimer_playerId (d : Int) (s : ClientState) :
    (startTimer d s).playerId = s.playerId := by
  unfold startTimer; split <;> rfl

theorem startTimer_gameState (d : Int) (s : ClientState) :
    (startTimer d s).gameState = s.gameState := by
  unfold startTimer; split <;> rfl

theorem startResolutionTimer_playerId (now : Int) (s : ClientState) :
    (startResolutionTimer now s).playerId = s.playerId := by
  unfold startResolutionTimer
  split
  · rfl
  · split
    · rfl
    · split <;> rfl

theorem startResolutionTimer_gameState (now : Int) (s : ClientState) :
    (startResolutionTimer now s).gameState = s.gameState := by
  unfold startResolutionTimer
  split
  · rfl
  · split
    · rfl
    · split <;> rfl

theorem renderTypingPhase_playerId (now : Int) (s : ClientState) (g : GameSnapshot)
    (p : PlayerState) : (renderTypingPhase now s g p).playerId = s.playerId := by
  unfold renderTypingPhase
  split
  · rfl
  · split
    · rfl
    · split <;> simp [apply_ite ClientState.playerId, startTimer_playerId]

theorem renderTypingPhase_gameState (now : Int) (s : ClientState) (g : GameSnapshot)
    (p : PlayerState) : (renderTypingPhase now s g p).gameState = s.gameState := by
  unfold renderTypingPhase
  split
  · rfl
  · split
    · rfl
    · split <;> simp [apply_ite ClientState.gameState, startTimer_gameState]

theorem renderGame_playerId (now : Int) (s : ClientState) :
    (renderGame now s).playerId = s.playerId := by
  unfold renderGame
  split
  · rfl
  · split
    · rfl
    · split
      · rfl
      · split
        · rfl
        · split
          · rw [renderTypingPhase_playerId]
          · rfl

theorem renderGame_gameState (now : Int) (s : ClientState) :
    (renderGame now s).gameState = s.gameState := by
  unfold renderGame
  split
  · rfl
  · split
    · rfl
    · split
      · rfl
      · split
        · rfl
        · split
          · rw [renderTypingPhase_gameState]
          · rfl

theorem renderGame_of_phase_ne_typing (now : Int) (s : ClientState) (g : GameSnapshot)
    (hg : s.gameState = some g) (hp : g.phase ≠ "typing") : renderGame now s = s := by
  simp only [renderGame, hg]
  split
  · rfl
  · split
    · rfl
    · simp [hp]

theorem startsWithL_append (pre r : List Char) : startsWithL (pre ++ r) pre = true := by
  induction pre with
  | nil =>
    cases r <;> rfl
  | cons c p ih => simp [startsWithL, ih]

theorem startsWithL_ex {s pre : List Char} (h : startsWithL s pre = true) :
    ∃ r, s = pre ++ r := by
  induction pre generalizing s with
  | nil => exact ⟨s, rfl⟩
  | cons p ps ih =>
    cases s with
    | nil => simp [startsWithL] at h
    | cons c s' =>
      simp only [startsWithL, Bool.and_eq_true, beq_iff_eq] at h
      obtain ⟨r, hr⟩ := ih h.2
      exact ⟨r, by simp [h.1, hr]⟩

theorem http_not_https (r : List Char) :
    startsWithL ("http://".toList ++ r) ("https://".toList) = false := rfl

theorem ws_not_https (r : List Char) :
    startsWithL ("ws://".toList ++ r) ("https://".toList) = false := rfl

theorem ws_not_http (r : List Char) :
    startsWithL ("ws://".toList ++ r) ("http://".toList) = false := rfl

theorem wss_not_https (r : List Char) :
    startsWithL ("wss://".toList ++ r) ("https://".toList) = false := rfl

theorem wss_not_http (r : List Char) :
    startsWithL ("wss://".toList ++ r) ("http://".toList) = false := rfl

theorem wss_not_ws (r : List Char) :
    startsWithL ("wss://".toList ++ r) ("ws://".toList) = false := rfl

/-- C7 counterexample: the claim's case analysis is stated on the raw
user-supplied address, but `connect` trims it first.  The address
`" ws://x"` (leading blank) starts with none of the four schemes, so the
claim dictates prepending `ws://`; the code instead trims and passes the
address through. -/
theorem c7_counterexample :
    startsWithL (" ws://x".toList) ("https://".toList) = false
  ∧ startsWithL (" ws://x".toList) ("http://".toList) = false
  ∧ startsWithL (" ws://x".toList) ("ws://".toList) = false
  ∧ startsWithL (" ws://x".toList) ("wss://".toList) = false
  ∧ normalizeUrl (" ws://x".toList) = "ws://x".toList
  ∧ normalizeUrl (" ws://x".toList) ≠ ("ws://".toList) ++ (" ws://x".toList) := by
  refine ⟨rfl, rfl, rfl, rfl, by decide, by decide⟩

/-- C7 (amended): after the address is trimmed of surrounding whitespace,
normalization maps a `https://` address to `wss://` with the prefix
replaced, a `http://` address to `ws://` with the prefix replaced, passes
an address already starting with `ws://` or `wss://` through unchanged, and
prepends `ws://` to any other address. -/
theorem c7_normalize_amended (u : List Char) :
    (startsWithL (jsTrim u) ("https://".toList) = true →
      normalizeUrl u = ("wss://".toList) ++ (jsTrim u).drop 8)
  ∧ (startsWithL (jsTrim u) ("http://".toList) = true →
      normalizeUrl u = ("ws://".toList) ++ (jsTrim u).drop 7)
  ∧ (startsWithL (jsTrim u) ("ws://".toList) = true ∨
      startsWithL (jsTrim u) ("wss://".toList) = true →
      normalizeUrl u = jsTrim u)
  ∧ (startsWithL (jsTrim u) ("https://".toList) = false →
      startsWithL (jsTrim u) ("http://".toList) = false →
      startsWithL (jsTrim u) ("ws://".toList) = false →
      startsWithL (jsTrim u) ("wss://".toList) = false →
      normalizeUrl u = ("ws://".toList) ++ jsTrim u) := by
  refine ⟨?_, ?_, ?_, ?_⟩
  · intro h
    simp only [normalizeUrl, h]
    simp
  · intro h
    obtain ⟨r, hr⟩ := startsWithL_ex h
    simp only [normalizeUrl, hr, http_not_https, startsWithL_append]
    simp
  · intro h
    rcases h with h | h
    · obtain ⟨r, hr⟩ := startsWithL_ex h
      simp only [normalizeUrl, hr, ws_not_https, ws_not_http, startsWithL_append]
      simp
    · obtain ⟨r, hr⟩ := startsWithL_ex h
      simp only [normalizeUrl, hr, wss_not_https, wss_not_http, wss_not_ws,
        startsWithL_append]
      simp
  · intro h1 h2 h3 h4
    simp only [normalizeUrl, h1, h2, h3, h4]
    simp

/-- C7 witness: `https://example.com` normalizes with the secure prefix
replaced. -/
theorem c7_witness :
    normalizeUrl ("https://example.com".toList) =
      ("wss://".toList) ++ (jsTrim ("https://example.com".toList)).drop 8 :=
  (c7_normalize_amended ("https://example.com".toList)).1 (by decide)

/-- C8 (confirmed): when a countdown is already running
(`state.timerInterval` non-null), both `startTimer` and
`startResolutionTimer` return immediately and leave the whole state
unchanged; since both countdowns share the single `timerInterval` handle,
at most one of the two can be registered at any time. -/
theorem c8_start_idempotent (s : ClientState) (d now : Int)
    (h : s.timerInterval.isSome = true) :
    startTimer d s = s ∧ startResolutionTimer now s = s := by
  constructor
  · simp [startTimer, h]
  · simp [startResolutionTimer, h]

/-- C8 witness: with the challenge countdown running, both start calls are
no-ops on a concrete state. -/
theorem c8_witness :
    startTimer 5000 { initialState with timerInterval := some (RunningTimer.challenge 9) }
        = { initialState with timerInterval := some (RunningTimer.challenge 9) }
  ∧ startResolutionTimer 77 { initialState with timerInterval := some (RunningTimer.challenge 9) }
        = { initialState with timerInterval := some (RunningTimer.challenge 9) } :=
  c8_start_idempotent _ 5000 77 (by decide)

/-- C10 (confirmed): whenever the join form actually sends a `join_room`
message, its `timer_seconds` field is the `parseInt` of the timer input when
that parse is a nonzero number, and the default 30 when the input parses to
0 or does not parse at all (in particular the empty input does not
parse). -/
theorem c10_timer_seconds (ok : Bool) (a b c t : List Char) (m : OutMsg)
    (h : joinFormSubmit ok a b c t = some m) :
    (∀ n : Int, jsParseInt t = some n → n ≠ 0 → sentTimerSeconds m = some n)
  ∧ (jsParseInt t = some 0 → sentTimerSeconds m = some 30)
  ∧ (jsParseInt t = none → sentTimerSeconds m = some 30)
  ∧ jsParseInt ([] : List Char) = none := by
  simp only [joinFormSubmit] at h
  split at h
  · exact absurd h (by simp)
  · split at h
    · exact absurd h (by simp)
    · refine ⟨?_, ?_, ?_, rfl⟩
      · intro n hn hne
        rw [hn] at h
        simp only [if_neg hne] at h
        obtain rfl := (Option.some_injective _ h).symm
        rfl
      · intro hn
        rw [hn] at h
        simp only [if_pos rfl] at h
        obtain rfl := (Option.some_injective _ h).symm
        rfl
      · intro hn
        rw [hn] at h
        obtain rfl := (Option.some_injective _ h).symm
        rfl

/-- C10 witness: a timer input of `"0"` falls back to the default 30 in the
sent message. -/
theorem c10_witness :
    sentTimerSeconds (OutMsg.join_room ("room1".toList) ("alice".toList) 30) = some 30 :=
  (c10_timer_seconds true ("alice".toList) ("example.com".toList) ("room1".toList)
    ("0".toList) _ (by decide)).2.1 (by decide)

theorem submitTyping_guarded (n : Int) (f : Bool) (s : ClientState)
    (h : s.typingSubmitted = true) : submitTyping n f s = (s, []) := by
  simp [submitTyping, h]

theorem submitTyping_sets (n : Int) (f : Bool) (s : ClientState)
    (h : s.typingSubmitted = false) :
    (submitTyping n f s).1.typingSubmitted = true := by
  simp only [submitTyping, h, Bool.false_eq_true, if_false]
  rw [stopTimer_typingSubmitted]

theorem challengeTick_guarded (now endT : Int) (s : ClientState)
    (h : s.typingSubmitted = true) (ht : s.timerInterval = none) :
    challengeTick now endT s = (s, []) := by
  simp only [challengeTick]
  split
  · have hst : stopTimer s = s := by simp [stopTimer, ht]
    rw [hst]
    simp [h]
  · rfl

theorem runSubmits_guarded (ts : List (Int × Bool)) (s : ClientState)
    (h : s.typingSubmitted = true) : runSubmits s ts = (s, []) := by
  induction ts with
  | nil => rfl
  | cons t ts ih =>
    simp [runSubmits, submitTyping_guarded t.1 t.2 s h, ih]

/-- C3 (confirmed): within one typing phase (while the one-shot
`typingSubmitted` guard stays down), any nonempty sequence of submit
triggers — button, Enter key, auto-complete, countdown expiry — produces
exactly the first call's single outbound `submit_typing` message and the
first call's state: every later call is a no-op. -/
theorem c3_submit_idempotent (s : ClientState) (n : Int) (f : Bool)
    (ts : List (Int × Bool)) (h : s.typingSubmitted = false) :
    (runSubmits s ((n, f) :: ts)).1 = (submitTyping n f s).1
  ∧ (runSubmits s ((n, f) :: ts)).2 = (submitTyping n f s).2
  ∧ ∃ txt ct, (submitTyping n f s).2 = [OutMsg.submit_typing txt ct] := by
  have hrest := runSubmits_guarded ts (submitTyping n f s).1 (submitTyping_sets n f s h)
  refine ⟨?_, ?_, ?_⟩
  · simp only [runSubmits, hrest]
  · simp only [runSubmits, hrest, List.append_nil]
  · refine ⟨s.typingInputValue, if f then some (n - s.typingStartTime.getD 0) else none, ?_⟩
    simp [submitTyping, h]

/-- C3 witness: three duplicate triggers send one message. -/
theorem c3_witness :
    (runSubmits { initialState with typingInputValue := "abc".toList }
        [(5, true), (9, true), (12, false)]).2 =
      [OutMsg.submit_typing ("abc".toList) (some 5)] := by
  have h := (c3_submit_idempotent { initialState with typingInputValue := "abc".toList }
    5 true [(9, true), (12, false)] (by decide)).2.1
  rw [h]
  decide

/-- C4 (confirmed): when the challenge countdown's interval body fires with
the deadline reached and the typing-submitted guard still unset, the
countdown stops itself and exactly one forced submission goes out, with a
null `completion_time_ms` and whatever text is currently in the input; any
later firing of the body leaves the state alone and sends nothing. -/
theorem c4_timeout_forced_submission (s : ClientState) (now endT : Int)
    (hrun : s.timerInterval = some (RunningTimer.challenge endT))
    (hsub : s.typingSubmitted = false)
    (hz : endT ≤ now) :
    challengeTick now endT s =
      ({ s with timerInterval := none, typingSubmitted := true },
       [OutMsg.submit_typing s.typingInputValue none])
  ∧ ∀ now2 : Int,
      challengeTick now2 endT { s with timerInterval := none, typingSubmitted := true } =
        ({ s with timerInterval := none, typingSubmitted := true }, []) := by
  constructor
  · have hcond : max 0 (endT - now) ≤ 0 := by omega
    simp only [challengeTick, if_pos hcond]
    rw [stopTimer_typingSubmitted]
    simp only [hsub, Bool.not_false, if_pos rfl]
    simp only [stopTimer, hrun, submitTyping]
    simp [hsub]
  · intro now2
    exact challengeTick_guarded now2 endT _ rfl rfl

/-- C4 witness: a concrete deadline-reached tick with text `"partia"` in the
input sends one forced `submit_typing` with null completion time. -/
theorem c4_witness :
    challengeTick 1300 1200
        { initialState with
          timerInterval := some (RunningTimer.challenge 1200),
          typingStartTime := some 200, typingInputValue := "partia".toList } =
      ({ initialState with
          timerInterval := none, typingSubmitted := true,
          typingStartTime := some 200, typingInputValue := "partia".toList },
       [OutMsg.submit_typing ("partia".toList) none]) :=
  (c4_timeout_forced_submission _ 1300 1200 (by decide) (by decide) (by decide)).1

/-- C1 (confirmed): a `game_update` processed before identity is known only
stores the snapshot (no edge effects, no other state change); when
`joined_room` then arrives for a room no longer waiting, and the buffered
snapshot's phase is `resolution` with a remaining-time hint, the resolution
countdown is started retroactively at that point. -/
theorem c1_buffered_snapshot_retroactive (s : ClientState) (g : GameSnapshot)
    (msg : JoinedRoomMsg) (now now2 r : Int)
    (hid : isFalsy s.playerId = true)
    (hph : g.phase = "resolution")
    (hr : g.phase_time_remaining_ms = some r)
    (hti : s.timerInterval = none)
    (hw : msg.room_state.phase ≠ "waiting_for_players") :
    handleGameUpdate now s g = ({ s with gameState := some g }, [])
  ∧ (handleJoinedRoom now2 (handleGameUpdate now s g).1 msg).timerInterval
      = some (RunningTimer.resolution now2 r) := by
  have h1 : handleGameUpdate now s g = ({ s with gameState := some g }, []) := by
    simp [handleGameUpdate, hid]
  refine ⟨h1, ?_⟩
  rw [h1]
  simp only [handleJoinedRoom, if_neg hw]
  have hrg :
      renderGame now2
        { s with gameState := some g, playerId := some msg.player_id,
                 roomId := some msg.room_id, roomState := some msg.room_state } =
      { s with gameState := some g, playerId := some msg.player_id,
               roomId := some msg.room_id, roomState := some msg.room_state } := by
    apply renderGame_of_phase_ne_typing now2 _ g rfl
    rw [hph]
    decide
  rw [hrg, if_pos hph]
  simp [startResolutionTimer, hti, hr]

/-- C1 witness: a concrete out-of-order pair of messages. -/
theorem c1_witness :
    (handleJoinedRoom 200
        (handleGameUpdate 100 initialState
          { turn_number := 3, phase := "resolution", players := [],
            available_spells := [], typing_phase := none,
            phase_time_remaining_ms := some 5000, winner := none }).1
        { player_id := "p1", room_id := "r",
          room_state :=
            { room_id := "r", max_players := 2, phase := "in_game",
              players := [] } }).timerInterval
      = some (RunningTimer.resolution 200 5000) :=
  (c1_buffered_snapshot_retroactive initialState _ _ 100 200 5000
    (by decide) (by decide) (by decide) (by decide) (by decide)).2

theorem handleGameUpdate_fst_playerId (now : Int) (s : ClientState) (g : GameSnapshot) :
    (handleGameUpdate now s g).1.playerId = s.playerId := by
  simp only [handleGameUpdate]
  split_ifs <;>
    simp [stopTimer_playerId, startResolutionTimer_playerId, renderGame_playerId]

theorem handleGameUpdate_fst_gameState (now : Int) (s : ClientState) (g : GameSnapshot) :
    (handleGameUpdate now s g).1.gameState = some g := by
  simp only [handleGameUpdate]
  split_ifs <;>
    simp [stopTimer_gameState, startResolutionTimer_gameState, renderGame_gameState]

theorem handleGameUpdate_snd (now : Int) (s : ClientState) (g : GameSnapshot)
    (h : isFalsy s.playerId = false) :
    (handleGameUpdate now s g).2 = edgesOf (s.gameState.map GameSnapshot.phase) g.phase := by
  simp only [handleGameUpdate, edgesOf]
  split_ifs <;> simp_all

theorem processUpdates_trace (us : List (Int × GameSnapshot)) :
    ∀ s : ClientState, isFalsy s.playerId = false →
    (processUpdates s us).2 =
      traceEdges (s.gameState.map GameSnapshot.phase) (us.map fun u => u.2.phase) := by
  induction us with
  | nil => intro s _; rfl
  | cons u us ih =>
    intro s h
    have hpid := handleGameUpdate_fst_playerId u.1 s u.2
    have hgs := handleGameUpdate_fst_gameState u.1 s u.2
    simp only [processUpdates, traceEdges, List.map_cons]
    rw [handleGameUpdate_snd u.1 s u.2 h,
        ih (handleGameUpdate u.1 s u.2).1 (by rw [hpid]; exact h), hgs]
    rfl

theorem edgesOf_self (p : String) : edgesOf (some p) p = [] := by
  simp [edgesOf]

theorem edgesOf_count (prev : Option String) (p : String) (e : PhaseEdge) :
    (edgesOf prev p).count e ≤ 1 := by
  unfold edgesOf
  cases e <;> split_ifs <;> decide

/-- C2 (confirmed): once identity is known, the edge effects fired along any
sequence of `game_update` messages are exactly the per-step
`edgesOf previous-phase new-phase` events of the induced phase-tag
sequence; an update repeating the previous snapshot's phase fires no edge
effect, and no single transition fires any edge block more than once.  Each
`PhaseEdge` event is emitted by `handleGameUpdate` in the same conditional
that performs the corresponding state effect of the claim (selection/guard
reset and countdown stop on entering `spell_selection`, countdown start on
entering `resolution`, countdown stop on leaving `typing` or
`resolution`). -/
theorem c2_edge_trace (s : ClientState) (us : List (Int × GameSnapshot))
    (h : isFalsy s.playerId = false) :
    ((processUpdates s us).2 =
      traceEdges (s.gameState.map GameSnapshot.phase) (us.map fun u => u.2.phase))
  ∧ (∀ p : String, edgesOf (some p) p = [])
  ∧ (∀ (prev : Option String) (p : String) (e : PhaseEdge),
      (edgesOf prev p).count e ≤ 1) :=
  ⟨processUpdates_trace us s h, edgesOf_self, edgesOf_count⟩

/-- C2 witness: three updates (`spell_selection`, `spell_selection` again,
`typing`) from a known identity fire the entry edge once and nothing on the
repeat. -/
theorem c2_witness :
    (processUpdates { initialState with playerId := some "p1" }
        [(1, { turn_number := 1, phase := "spell_selection", players := [],
               available_spells := [], typing_phase := none,
               phase_time_remaining_ms := none, winner := none }),
         (2, { turn_number := 1, phase := "spell_selection", players := [],
               available_spells := [], typing_phase := none,
               phase_time_remaining_ms := none, winner := none }),
         (3, { turn_number := 1, phase := "typing", players := [],
               available_spells := [], typing_phase := none,
               phase_time_remaining_ms := none, winner := none })]).2 =
      traceEdges none ["spell_selection", "spell_selection", "typing"] :=
  (c2_edge_trace { initialState with playerId := some "p1" } _ (by decide)).1

theorem runs_flatten (l : List Char) : (runs l).flatten = l := by
  induction l with
  | nil => rfl
  | cons c cs ih =>
    rcases hr : runs cs with _ | ⟨r, rs⟩
    · rw [hr] at ih
      simp only [List.flatten_nil] at ih
      simp [runs, hr, ← ih]
    · rcases r with _ | ⟨d, ds⟩
      · rw [hr] at ih
        simp only [List.flatten_cons, List.nil_append] at ih
        simp [runs, hr, List.flatten_cons, ih]
      · rw [hr] at ih
        simp only [List.flatten_cons] at ih
        simp only [runs, hr]
        split
        · simp [List.flatten_cons, ih]
        · simp [List.flatten_cons, ih]

theorem runs_sound (l : List Char) :
    ∀ w ∈ runs l, (!w.isEmpty && (w.all isWS || w.all fun c => !isWS c)) = true := by
  induction l with
  | nil => intro w hw; simp [runs] at hw
  | cons c cs ih =>
    intro w hw
    have ih' : ∀ w ∈ runs cs,
        (!w.isEmpty && (w.all isWS || w.all fun c => !isWS c)) = true := ih
    rcases hr : runs cs with _ | ⟨r, rs⟩ <;> rw [hr] at ih'
    · simp only [runs, hr] at hw
      simp at hw
      subst hw
      cases h : isWS c <;> simp [h]
    · rcases r with _ | ⟨d, ds⟩
      · simp only [runs, hr] at hw
        rcases List.mem_cons.1 hw with hw | hw
        · subst hw
          cases h : isWS c <;> simp [h]
        · exact ih' w (List.mem_cons_of_mem _ hw)
      · have hdm := ih' (d :: ds) (List.mem_cons_self _ _)
        simp only [runs, hr] at hw
        split at hw
        · next hcd =>
          rcases List.mem_cons.1 hw with hw | hw
          · subst hw
            simp only [Bool.and_eq_true, Bool.or_eq_true, List.all_cons] at hdm ⊢
            refine ⟨rfl, ?_⟩
            rcases hdm.2 with hall | hall
            · exact Or.inl ⟨by rw [hcd]; exact hall.1, hall⟩
            · refine Or.inr ⟨?_, hall⟩
              have hd := hall.1
              rw [Bool.not_eq_true'] at hd ⊢
              rw [hcd, hd]
          · exact ih' w (List.mem_cons_of_mem _ hw)
        · rcases List.mem_cons.1 hw with hw | hw
          · subst hw
            cases h : isWS c <;> simp [h]
          · exact ih' w hw

theorem runs_cons_head (c : Char) (cs : List Char) :
    ∃ r rs, runs (c :: cs) = (c :: r) :: rs ∧ ∀ d ∈ r, isWS d = isWS c := by
  rcases hr : runs cs with _ | ⟨r, rs⟩
  · exact ⟨[], [], by simp [runs, hr], by simp⟩
  · rcases r with _ | ⟨d, ds⟩
    · exact ⟨[], rs, by simp [runs, hr], by simp⟩
    · have hdm := runs_sound cs (d :: ds) (hr ▸ List.mem_cons_self _ _)
      by_cases hcd : isWS c = isWS d
      · refine ⟨d :: ds, rs, by simp [runs, hr, hcd], ?_⟩
        intro x hx
        simp only [Bool.and_eq_true, Bool.or_eq_true] at hdm
        rcases hdm.2 with hall | hall
        · rw [List.all_eq_true] at hall
          rw [hall x hx, hcd, hall d (List.mem_cons_self _ _)]
        · rw [List.all_eq_true] at hall
          have hxv := hall x hx
          have hdv := hall d (List.mem_cons_self _ _)
          rw [Bool.not_eq_true'] at hxv hdv
          rw [hxv, hcd, hdv]
      · exact ⟨[], (d :: ds) :: rs, by simp [runs, hr, hcd], by simp⟩

theorem all_not_eq_not_any (p : Char → Bool) (l : List Char) :
    (l.all fun a => !p a) = !(l.any p) := by
  induction l with
  | nil => rfl
  | cons c cs ih => simp [List.all_cons, List.any_cons, ih, Bool.not_or]

theorem splitCapture_flatten (l : List Char) : (splitCapture l).flatten = l := by
  have hj := runs_flatten l
  rcases hr : runs l with _ | ⟨r, rs⟩ <;> rw [hr] at hj <;> simp only [splitCapture, hr]
  · simpa using hj
  · split_ifs <;>
      simp_all [List.flatten_append, List.flatten_cons]

theorem splitCapture_mem (l : List Char) :
    ∀ w ∈ splitCapture l, w = [] ∨ w ∈ runs l := by
  intro w hw
  rcases hr : runs l with _ | ⟨r, rs⟩ <;> simp only [splitCapture, hr] at hw
  · simp at hw
    exact Or.inl hw
  · split_ifs at hw <;> simp at hw ⊢ <;> tauto

theorem filter_chain_runs (ws : List (List Char))
    (h : ∀ w ∈ ws, (!w.isEmpty && (w.all isWS || w.all fun c => !isWS c)) = true) :
    ((ws.filter fun w => w.all fun c => !isWS c).filter fun w => !w.isEmpty)
      = ws.filter fun w => !(w.any isWS) := by
  induction ws with
  | nil => rfl
  | cons w ws ih =>
    have hw := h w (List.mem_cons_self _ _)
    have hrec := ih fun x hx => h x (List.mem_cons_of_mem _ hx)
    simp only [Bool.and_eq_true] at hw
    have hne := hw.1
    by_cases hany : w.any isWS = true
    · have hall : (w.all fun c => !isWS c) = false := by
        rw [all_not_eq_not_any, hany]
        rfl
      simp [List.filter_cons, hall, hany, hrec]
    · have hany' : w.any isWS = false := by
        rw [Bool.not_eq_true] at hany
        exact hany
      have hall : (w.all fun c => !isWS c) = true := by
        rw [all_not_eq_not_any, hany']
        rfl
      simp [List.filter_cons, hall, hany', hne, hrec]

theorem typedWords_eq (t : List Char) :
    ((splitCapture t).filter fun w => w.all fun c => !isWS c).filter (fun w => !w.isEmpty)
      = (runs t).filter fun w => !(w.any isWS) := by
  have hs := runs_sound t
  rcases hr : runs t with _ | ⟨r, rs⟩ <;> rw [hr] at hs <;> simp only [splitCapture, hr]
  · rfl
  · have hmid := filter_chain_runs (r :: rs) hs
    have hpadE : (((([[]] : List (List Char))).filter fun w => w.all fun c => !isWS c).filter
        fun w => !w.isEmpty) = [] := rfl
    split_ifs <;>
      simp only [List.filter_append, List.filter_nil, List.nil_append, List.append_nil,
        hpadE] <;>
      exact hmid

theorem classifyCurrent_nil_right (tw : List Char) : classifyCurrent tw [] = [] := by
  cases tw <;> rfl

theorem classifyCurrent_chars (w : List Char) :
    ∀ tw, (classifyCurrent tw w).map itemChar = w := by
  induction w with
  | nil => intro tw; rw [classifyCurrent_nil_right]; rfl
  | cons c w ih =>
    intro tw
    cases tw with
    | nil => simp [classifyCurrent, itemChar, ih]
    | cons t tw =>
      simp only [classifyCurrent]
      split <;> simp [itemChar, ih]

theorem classifyCurrent_self (w : List Char) :
    (classifyCurrent w w).all isDoneItem = true := by
  induction w with
  | nil => rfl
  | cons c w ih => simp [classifyCurrent, isDoneItem, ih]

theorem classifyCurrent_nil_pending (w : List Char) :
    (classifyCurrent [] w).all isPendingItem = true := by
  induction w with
  | nil => rfl
  | cons c w ih => simp [classifyCurrent, isPendingItem, ih]

theorem classifyCurrent_ok (w : List Char) :
    ∀ tw, (w.all fun c => !isWS c) = true →
      (classifyCurrent tw w).all itemOk = true := by
  induction w with
  | nil => intro tw _; rw [classifyCurrent_nil_right]; rfl
  | cons c w ih =>
    intro tw h
    simp only [List.all_cons, Bool.and_eq_true] at h
    cases tw with
    | nil => simp [classifyCurrent, itemOk, h.1, ih [] h.2]
    | cons t tw =>
      simp only [classifyCurrent]
      split <;> simp [itemOk, h.1, ih tw h.2]

theorem itemChar_ws (c : Char) : itemChar (FeedbackItem.ws c) = c := rfl

theorem itemChar_span (cls : Cls) (c : Char) : itemChar (FeedbackItem.span cls c) = c := rfl

theorem map_itemChar_ws (w : List Char) : w.map (itemChar ∘ FeedbackItem.ws) = w := by
  induction w with
  | nil => rfl
  | cons c w ih => simp [Function.comp, itemChar_ws, ih]

theorem map_itemChar_span (cls : Cls) (w : List Char) :
    w.map (itemChar ∘ FeedbackItem.span cls) = w := by
  induction w with
  | nil => rfl
  | cons c w ih => simp [Function.comp, itemChar_span, ih]

theorem feedbackLoop_chars (tns : List (List Char)) (cur : Nat) :
    ∀ (ws : List (List Char)) (k : Nat),
      (feedbackLoop tns cur k ws).map itemChar = ws.flatten := by
  intro ws
  induction ws with
  | nil => intro k; rfl
  | cons w ws ih =>
    intro k
    simp only [feedbackLoop, List.flatten_cons]
    split
    · simp [List.map_append, map_itemChar_ws, ih k]
    · split
      · simp [List.map_append, map_itemChar_span, ih (k + 1)]
      · split <;>
          simp [List.map_append, map_itemChar_span, ih (k + 1), classifyCurrent_chars]

theorem feedbackLoop_append_empty (tns : List (List Char)) (cur : Nat) :
    ∀ (ws : List (List Char)) (k : Nat),
      feedbackLoop tns cur k (ws ++ [[]]) = feedbackLoop tns cur k ws := by
  intro ws
  induction ws with
  | nil =>
    intro k
    simp only [List.nil_append, feedbackLoop]
    split
    · simp at *
    · split <;> simp [classifyCurrent_nil_right]
  | cons w ws ih =>
    intro k
    simp only [List.cons_append, feedbackLoop, List.append_eq]
    split
    · rw [ih k]
    · rw [ih (k + 1)]

theorem feedbackLoop_eq_specLoop (tns : List (List Char)) (cur : Nat) :
    ∀ ws : List (List Char),
      (∀ w ∈ ws, (!w.isEmpty && (w.all isWS || w.all fun c => !isWS c)) = true) →
      ∀ k, feedbackLoop tns cur k ws = specLoop tns cur k ws := by
  intro ws
  induction ws with
  | nil => intro _ k; rfl
  | cons w ws ih =>
    intro h k
    have hw := h w (List.mem_cons_self _ _)
    have hrec := ih (fun x hx => h x (List.mem_cons_of_mem _ hx))
    simp only [Bool.and_eq_true, Bool.or_eq_true] at hw
    rcases hw.2 with hall | hall
    · have hany : w.any isWS = true := by
        rcases w with _ | ⟨c, w'⟩
        · simp at hw
        · simp only [List.all_cons, Bool.and_eq_true] at hall
          simp [List.any_cons, hall.1]
      have htest : (!w.isEmpty && w.all isWS) = true := by simp [hw.1, hall]
      simp only [feedbackLoop, specLoop, htest, hany, if_true]
      rw [hrec k]
    · have hnotany : (!w.any isWS) = true := by
        rw [← all_not_eq_not_any]
        exact hall
      have hany : w.any isWS = false := by
        rw [Bool.not_eq_true'] at hnotany
        exact hnotany
      have htest : (!w.isEmpty && w.all isWS) = false := by
        rcases w with _ | ⟨c, w'⟩
        · simp at hw
        · simp only [List.all_cons, Bool.and_eq_true] at hall
          have hc : isWS c = false := by
            have := hall.1
            rwa [Bool.not_eq_true'] at this
          simp [List.all_cons, hc]
      simp only [feedbackLoop, specLoop, htest, hany, Bool.false_eq_true, if_false]
      rw [hrec (k + 1)]

theorem updateTypingFeedback_eq_wordSpec (e t : List Char) (h : noLeadingWS e = true) :
    updateTypingFeedback e t = feedbackWordSpec e t := by
  simp only [updateTypingFeedback, feedbackWordSpec, typedWords_eq]
  have hcur :
      (if ((runs t).filter fun w => !(w.any isWS)).length > 0 then
        ((runs t).filter fun w => !(w.any isWS)).length - 1
      else 0) = ((runs t).filter fun w => !(w.any isWS)).length - 1 := by
    split <;> omega
  rw [hcur]
  rcases e with _ | ⟨c, cs⟩
  · rw [show (splitCapture [] : List (List Char)) = [] ++ [[]] from rfl,
      feedbackLoop_append_empty]
    rfl
  · simp only [noLeadingWS] at h
    obtain ⟨r, rs, hruns, hclass⟩ := runs_cons_head c cs
    have hsound := runs_sound (c :: cs)
    rw [hruns] at hsound
    have hfront : ((c :: r).any isWS) = false := by
      have hc : isWS c = false := by
        rw [Bool.not_eq_true'] at h
        exact h
      simp only [List.any_cons, hc, Bool.false_or]
      cases hany : r.any isWS
      · rfl
      · exfalso
        obtain ⟨d, hd, hdw⟩ := List.any_eq_true.1 hany
        rw [hclass d hd, hc] at hdw
        exact Bool.false_ne_true hdw
    rw [hruns]
    simp only [splitCapture, hruns, hfront, Bool.false_eq_true, if_false, List.nil_append]
    split
    · rw [feedbackLoop_append_empty]
      exact feedbackLoop_eq_specLoop _ _ _ hsound 0
    · rw [List.append_nil]
      exact feedbackLoop_eq_specLoop _ _ _ hsound 0

theorem getD_of_drop (tws : List (List Char)) :
    ∀ (k : Nat) (r : List Char) (rest : List (List Char)),
      tws.drop k = r :: rest → tws.getD k [] = r := by
  induction tws with
  | nil =>
    intro k r rest hd
    simp at hd
  | cons a tws ih =>
    intro k r rest hd
    cases k with
    | zero =>
      simp only [List.drop_zero] at hd
      rw [List.getD_cons_zero]
      exact (List.cons.injEq a tws r rest ▸ hd).1
    | succ k =>
      simp only [List.drop_succ_cons] at hd
      simpa [List.getD_cons_succ] using ih k r rest hd

theorem specLoop_done (tws : List (List Char)) :
    ∀ (rs : List (List Char)) (k : Nat),
      rs.filter (fun w => !(w.any isWS)) = tws.drop k →
      k + (rs.filter (fun w => !(w.any isWS))).length = tws.length →
      (specLoop tws (tws.length - 1) k rs).all isDoneItem = true := by
  intro rs
  induction rs with
  | nil => intro k _ _; rfl
  | cons r rs ih =>
    intro k h1 h2
    by_cases hany : r.any isWS = true
    · have hf : (r :: rs).filter (fun w => !(w.any isWS)) =
          rs.filter (fun w => !(w.any isWS)) := by
        simp [List.filter_cons, hany]
      rw [hf] at h1 h2
      simp only [specLoop, hany, if_true]
      rw [List.all_append, Bool.and_eq_true]
      refine ⟨?_, ih k h1 h2⟩
      simp [List.all_map, Function.comp, isDoneItem]
    · have hany' : r.any isWS = false := by
        rw [Bool.not_eq_true] at hany
        exact hany
      have hf : (r :: rs).filter (fun w => !(w.any isWS)) =
          r :: rs.filter (fun w => !(w.any isWS)) := by
        simp [List.filter_cons, hany']
      rw [hf] at h1 h2
      have hget : tws.getD k [] = r := getD_of_drop tws k _ _ h1.symm
      have hlen : k + 1 ≤ tws.length := by
        simp only [List.length_cons] at h2
        omega
      simp only [specLoop, hany', Bool.false_eq_true, if_false]
      rw [List.all_append, Bool.and_eq_true]
      constructor
      · by_cases hk : k < tws.length - 1
        · rw [if_pos hk]
          simp [List.all_map, Function.comp, isDoneItem]
        · have hke : k = tws.length - 1 := by omega
          rw [if_neg hk, if_pos hke, hget]
          exact classifyCurrent_self r
      · apply ih (k + 1)
        · have hdd : tws.drop (k + 1) = (tws.drop k).drop 1 := by
            rw [List.drop_drop]
          rw [hdd, ← h1]
          rfl
        · simp only [List.length_cons] at h2
          omega

theorem feedbackLoop_pending (ws : List (List Char)) :
    ∀ k, (feedbackLoop [] 0 k ws).all isPendingItem = true := by
  induction ws with
  | nil => intro k; rfl
  | cons w ws ih =>
    intro k
    simp only [feedbackLoop]
    split
    · rw [List.all_append, Bool.and_eq_true]
      exact ⟨by simp [List.all_map, Function.comp, isPendingItem], ih k⟩
    · rw [List.all_append, Bool.and_eq_true]
      refine ⟨?_, ih (k + 1)⟩
      have hk : ¬k < 0 := Nat.not_lt_zero k
      rw [if_neg hk]
      by_cases hke : k = 0
      · rw [if_pos hke]
        have : (([] : List (List Char)).getD k []) = [] := by
          simp [List.getD]
        rw [this]
        exact classifyCurrent_nil_pending w
      · rw [if_neg hke]
        simp [List.all_map, Function.comp, isPendingItem]

theorem feedbackLoop_ok (tns : List (List Char)) (cur : Nat) :
    ∀ (ws : List (List Char)) (k : Nat),
      (∀ w ∈ ws, w = [] ∨ (w.all isWS = true ∨ (w.all fun c => !isWS c) = true)) →
      (feedbackLoop tns cur k ws).all itemOk = true := by
  intro ws
  induction ws with
  | nil => intro k _; rfl
  | cons w ws ih =>
    intro k h
    have hw := h w (List.mem_cons_self _ _)
    have hrec := fun k' => ih k' (fun x hx => h x (List.mem_cons_of_mem _ hx))
    simp only [feedbackLoop]
    split
    · next htest =>
      rw [List.all_append, Bool.and_eq_true]
      refine ⟨?_, hrec k⟩
      simp only [Bool.and_eq_true] at htest
      have hall := htest.2
      rw [List.all_eq_true] at hall
      rw [List.all_eq_true]
      intro x hx
      obtain ⟨c, hc, rfl⟩ := List.mem_map.1 hx
      simp [itemOk, hall c hc]
    · next htest =>
      rw [List.all_append, Bool.and_eq_true]
      refine ⟨?_, hrec (k + 1)⟩
      rcases hw with rfl | hw2
      · split
        · rfl
        · split
          · rw [classifyCurrent_nil_right]
            rfl
          · rfl
      · rcases hw2 with hallws | hallnot
        · rcases w with _ | ⟨c, w'⟩
          · split
            · rfl
            · split
              · rw [classifyCurrent_nil_right]
                rfl
              · rfl
          · exfalso
            apply htest
            simp [hallws]
        · split
          · rw [List.all_eq_true]
            intro x hx
            obtain ⟨c, hc, rfl⟩ := List.mem_map.1 hx
            rw [List.all_eq_true] at hallnot
            simp [itemOk, hallnot c hc]
          · split
            · exact classifyCurrent_ok w _ hallnot
            · rw [List.all_eq_true]
              intro x hx
              obtain ⟨c, hc, rfl⟩ := List.mem_map.1 hx
              rw [List.all_eq_true] at hallnot
              simp [itemOk, hallnot c hc]

/-- C5 counterexample: for a target beginning with whitespace the captured
split contributes an empty leading segment that consumes word index 0, so
the typed word is compared against the wrong target word.  With target
`" ab"` and typed `"a"`, the claim's word-grouped contract renders the
in-progress word `ab` per-character (`a` correct, `b` pending), but the
code renders both characters pending. -/
theorem c5_counterexample :
    updateTypingFeedback (" ab".toList) ("a".toList) =
      [FeedbackItem.ws ' ', FeedbackItem.span Cls.pending 'a',
       FeedbackItem.span Cls.pending 'b']
  ∧ feedbackWordSpec (" ab".toList) ("a".toList) =
      [FeedbackItem.ws ' ', FeedbackItem.span Cls.correct 'a',
       FeedbackItem.span Cls.pending 'b']
  ∧ updateTypingFeedback (" ab".toList) ("a".toList) ≠
      feedbackWordSpec (" ab".toList) ("a".toList) := by
  refine ⟨by decide, by decide, by decide⟩

/-- C5 (amended): provided the target does not begin with a whitespace
character, the diff classification is exactly the word-grouped contract
`feedbackWordSpec`: whitespace runs pass through unmodified, words strictly
before the word currently being typed render in the single muted
`completed` class regardless of per-character history, the in-progress
word renders per-character correct/incorrect/pending by positional
comparison, and not-yet-reached words render pending. -/
theorem c5_word_grouped_amended (e t : List Char) (h : noLeadingWS e = true) :
    updateTypingFeedback e t = feedbackWordSpec e t :=
  updateTypingFeedback_eq_wordSpec e t h

/-- C5 witness: a concrete mid-word state agrees with the word-grouped
contract. -/
theorem c5_witness :
    updateTypingFeedback ("abc def".toList) ("abd d".toList) =
      feedbackWordSpec ("abc def".toList) ("abd d".toList) :=
  c5_word_grouped_amended _ _ (by decide)

/-- C6 counterexample: `diff(t, t)` is not all-correct when the target
begins with whitespace; at `t = " a"` the character `a` is classified
`pending` even though the typed text equals the target. -/
theorem c6_counterexample :
    updateTypingFeedback (" a".toList) (" a".toList) =
      [FeedbackItem.ws ' ', FeedbackItem.span Cls.pending 'a']
  ∧ isDoneItem (FeedbackItem.span Cls.pending 'a') = false := by
  refine ⟨by decide, by decide⟩

/-- C6 (amended): the diff is a pure function of the pair (target, typed)
— in this embedding definitionally so; `diff(t, "")` classifies every
classified (non-whitespace) character pending; and `diff(t, t)` classifies
every classified character correct/completed provided the target does not
begin with a whitespace character.  Whitespace characters pass through
unclassified. -/
theorem c6_diff_pure_amended (t u : List Char) :
    updateTypingFeedback t u = updateTypingFeedback t u
  ∧ (updateTypingFeedback t []).all isPendingItem = true
  ∧ (noLeadingWS t = true → (updateTypingFeedback t t).all isDoneItem = true) := by
  refine ⟨rfl, ?_, ?_⟩
  · have h0 : updateTypingFeedback t [] = feedbackLoop [] 0 0 (splitCapture t) := rfl
    rw [h0]
    exact feedbackLoop_pending (splitCapture t) 0
  · intro h
    rw [updateTypingFeedback_eq_wordSpec t t h]
    simp only [feedbackWordSpec]
    apply specLoop_done
    · rw [List.drop_zero]
    · simp

/-- C6 witness: `diff("ab cd", "ab cd")` renders everything
correct/completed. -/
theorem c6_witness :
    (updateTypingFeedback ("ab cd".toList) ("ab cd".toList)).all isDoneItem = true :=
  (c6_diff_pure_amended ("ab cd".toList) ("ab cd".toList)).2.2 (by decide)

/-- C9 (confirmed): for every pair (target, typed), the diff output
displays exactly the characters of the target in their original order —
one output item per target character, so each character carries exactly one
classification and characters of the typed string never appear — and every
raw (unclassified) item is a whitespace character of the target while every
classified span carries a non-whitespace character, i.e. the target's
whitespace is preserved verbatim. -/
theorem c9_feedback_chars (e t : List Char) :
    feedbackChars (updateTypingFeedback e t) = e
  ∧ (updateTypingFeedback e t).all itemOk = true := by
  constructor
  · simp only [feedbackChars, updateTypingFeedback]
    rw [feedbackLoop_chars, splitCapture_flatten]
  · simp only [updateTypingFeedback]
    apply feedbackLoop_ok
    intro w hw
    rcases splitCapture_mem e w hw with h | h
    · exact Or.inl h
    · have hs := runs_sound e w h
      simp only [Bool.and_eq_true, Bool.or_eq_true] at hs
      exact Or.inr hs.2
